import Mathlib

/-!
# Verification of `shrink_borders.py` (image-borders)

A shallow embedding of the border-normalization tool: border-color detection
from the four corner pixels, the per-edge content-bounds scan, the
crop-and-pad / add-border / skip decision, and the per-file batch loop.

Pixel values are modelled exactly as the Python code sees them: a pixel read
from PIL is either a single numeric value (grayscale modes), a tuple of
channel values, or `None` (the defensive "absent" case handled in
`get_border_color`).  Machine integers of the source are plain `Nat`s: pixel
channel values are non-negative and no arithmetic in the source overflows.
-/

/-- A normalized pixel color: an ordered tuple of channel values
(`tuple[int, ...]` in the source). -/
abbrev PixelColor := List Nat

/-- A raw pixel as returned by PIL's `getpixel` / `pixels[x, y]`:
a bare number (grayscale), a tuple of channels, or `None`. -/
inductive Pixel where
  | num (v : Nat)
  | channels (cs : List Nat)
  | absent
deriving DecidableEq

/-- PIL color modes, as distinguished by `process_image`
(`'L'`, `'RGB'`, `'RGBA'`, anything else). -/
inductive Mode where
  | L
  | RGB
  | RGBA
  | other
deriving DecidableEq

/-- A decoded image: dimensions, mode, the pixel grid (both `img.getpixel`
and the `img.load()` accessor read from it), and whether `img.load()`
returns a pixel-access object (`loaded = false` models `pixels is None`). -/
structure Img where
  width : Nat
  height : Nat
  mode : Mode
  pix : Nat → Nat → Pixel
  loaded : Bool

/-- The corner-pixel normalization of `get_border_color` (lines 30-36):
an `int`/`float` pixel becomes a 1-tuple, `None` becomes `(0,)`,
anything else is the tuple of its channel values. -/
def normalizeCorner : Pixel → PixelColor
  | Pixel.num v => [v]
  | Pixel.absent => [0]
  | Pixel.channels cs => cs

/-- `get_border_color(img)`: read the four corner pixels, normalize each,
and return the shared color if all four match (`None` otherwise). -/
def get_border_color (img : Img) : Option PixelColor :=
  let width := img.width
  let height := img.height
  let corners : List Pixel :=
    [img.pix 0 0, img.pix (width - 1) 0, img.pix 0 (height - 1),
      img.pix (width - 1) (height - 1)]
  let normalized_corners : List PixelColor := corners.map normalizeCorner
  let first_corner : PixelColor := normalized_corners.headI
  if normalized_corners.all fun corner => decide (corner = first_corner) then
    some first_corner
  else
    Option.none

/-- The pixel normalization used inside the scan loops (lines 69-73 etc.):
`(int(pixel),)` for numeric pixels, `tuple(int(c) for c in pixel)` otherwise.
On `None` the `tuple(...)` call raises `TypeError`, modelled as `none`
(the exception is caught at the `process_image` level). -/
def scanNorm : Pixel → Option PixelColor
  | Pixel.num v => some [v]
  | Pixel.channels cs => some cs
  | Pixel.absent => Option.none

/-- The inner loop of one boundary scan: walk the pixels of one line
(indices `idxs`, pixel at offset `i` given by `getPixel i`), and report
whether some pixel differs from `border_color` (`some true` at the first
difference, `some false` if the line is exhausted, `none` if a pixel
fails to normalize, i.e. the Python loop raises). -/
def scanLine (getPixel : Nat → Pixel) (border_color : PixelColor) :
    List Nat → Option Bool
  | [] => some false
  | i :: is =>
    match scanNorm (getPixel i) with
    | Option.none => Option.none
    | some current_color =>
      if current_color ≠ border_color then some true
      else scanLine getPixel border_color is

/-- The outer loop of one boundary scan (the `for ... else ... break`
pattern of the source): return the first index whose line reports content,
or `fallback` (the initialisation of `left_content` / `right_content` /
`top_content` / `bottom_content`) when no line does; `none` propagates a
raised exception. -/
def findBoundary (lineHasContent : Nat → Option Bool) (fallback : Nat) :
    List Nat → Option Nat
  | [] => some fallback
  | i :: is =>
    match lineHasContent i with
    | Option.none => Option.none
    | some true => some i
    | some false => findBoundary lineHasContent fallback is

/-- The nine values returned by `find_uniform_content_bounds`. -/
structure Bounds where
  left_border : Nat
  right_border : Nat
  top_border : Nat
  bottom_border : Nat
  content_left : Nat
  content_top : Nat
  content_right : Nat
  content_bottom : Nat
  max_border : Nat
deriving DecidableEq

/-- `find_uniform_content_bounds(img, border_color, padding)` (lines 46-153).
If `img.load()` yields no pixel access object the early fallback tuple is
returned; otherwise the four boundary scans run in source order (left,
right, top, bottom), an exception in any of them aborting the whole call
(`none`).  `padding` is a parameter of the source function but is unused in
its body. -/
def find_uniform_content_bounds (img : Img) (border_color : PixelColor)
    (padding : Nat) : Option Bounds :=
  let width := img.width
  let height := img.height
  if img.loaded then
    match findBoundary
        (fun x => scanLine (fun y => img.pix x y) border_color (List.range height))
        0 (List.range width) with
    | Option.none => Option.none
    | some left_content =>
      match findBoundary
          (fun x => scanLine (fun y => img.pix x y) border_color (List.range height))
          (width - 1) (List.range width).reverse with
      | Option.none => Option.none
      | some right_content =>
        match findBoundary
            (fun y => scanLine (fun x => img.pix x y) border_color (List.range width))
            0 (List.range height) with
        | Option.none => Option.none
        | some top_content =>
          match findBoundary
              (fun y => scanLine (fun x => img.pix x y) border_color (List.range width))
              (height - 1) (List.range height).reverse with
          | Option.none => Option.none
          | some bottom_content =>
            -- fields: left/right/top/bottom border widths, content rectangle
            -- (exclusive right/bottom), max border
            some ⟨left_content,
                  width - 1 - right_content,
                  top_content,
                  height - 1 - bottom_content,
                  left_content,
                  top_content,
                  right_content + 1,
                  bottom_content + 1,
                  Nat.max (Nat.max (Nat.max left_content (width - 1 - right_content))
                      top_content)
                    (height - 1 - bottom_content)⟩
  else
    some ⟨0, 0, 0, 0, 0, 0, width, height, 0⟩

/-- `img.crop((left, upper, right, lower))` of PIL: a new image holding the
pixels of the given rectangle (right/lower exclusive). -/
def crop (img : Img) (left upper right lower : Nat) : Img :=
  ⟨right - left, lower - upper, img.mode,
    fun x y => img.pix (left + x) (upper + y), true⟩

/-- A fill argument for `ImageOps.expand`: the source passes either a bare
number (grayscale) or a tuple. -/
inductive Fill where
  | single (v : Nat)
  | multi (cs : List Nat)
deriving DecidableEq

/-- The pixel that a `Fill` value paints. -/
def fillPixel : Fill → Pixel
  | Fill.single v => Pixel.num v
  | Fill.multi cs => Pixel.channels cs

/-- `ImageOps.expand(image, border, fill)` of PIL: add `border` pixels of
`fill` on every side. -/
def expand (img : Img) (border : Nat) (fill : Pixel) : Img :=
  ⟨img.width + 2 * border, img.height + 2 * border, img.mode,
    fun x y =>
      if border ≤ x ∧ x < border + img.width ∧ border ≤ y ∧ y < border + img.height
      then img.pix (x - border) (y - border)
      else fill,
    true⟩

/-- Modelled from the spec: `img.convert('RGB')` is PIL-library code outside
this repository.  Per the spec it converts an image of an unsupported mode
to a 3-channel color mode, preserving dimensions.  The per-pixel channel
conversion itself is not modelled (no claim depends on the converted
channel values), only the mode and the preserved geometry. -/
def convert_rgb (img : Img) : Img :=
  ⟨img.width, img.height, Mode.RGB, img.pix, img.loaded⟩

/-- The default (white) fill-color choice of the no-uniform-border branch
(lines 181-188): a bare `255` for mode `'L'`, a full-white tuple for
`'RGB'` / `'RGBA'`, and for any other mode the image is first converted to
RGB and filled with `(255, 255, 255)`.  Returns the fill together with the
(possibly converted) image that is expanded. -/
def default_fill_color (img : Img) : Fill × Img :=
  match img.mode with
  | Mode.L => (Fill.single 255, img)
  | Mode.RGB => (Fill.multi [255, 255, 255], img)
  | Mode.RGBA => (Fill.multi [255, 255, 255, 255], img)
  | Mode.other => (Fill.multi [255, 255, 255], convert_rgb img)

/-- The transformation decided for one image (§4.3 of the spec): skip,
add a default border around the whole image, or crop to the content
rectangle and re-pad with the detected color. -/
inductive NormalizationPlan where
  | skip
  | addUniformBorder
  | cropAndPad (content_left content_top content_right content_bottom : Nat)
      (color : PixelColor)
deriving DecidableEq

/-- The decision logic of `process_image` (lines 156-268), stripped of
logging and I/O: corners mismatching gives the add-border plan; otherwise
the scanner runs and the result is `Skip` exactly when `max_border == 0`
and `padding == 0`, else crop-and-pad with the detected color.  `none`
models the exception path (caught at line 291). -/
def plan_image (img : Img) (padding : Nat) : Option NormalizationPlan :=
  match get_border_color img with
  | Option.none => some NormalizationPlan.addUniformBorder
  | some border_color =>
    match find_uniform_content_bounds img border_color padding with
    | Option.none => Option.none
    | some b =>
      if b.max_border = 0 ∧ padding = 0 then some NormalizationPlan.skip
      else
        some (NormalizationPlan.cropAndPad b.content_left b.content_top
          b.content_right b.content_bottom border_color)

/-- Executing a plan on the image (lines 190-191 and 258-268): the
add-border branch expands the (possibly RGB-converted) original with the
default white fill; the crop-and-pad branch crops to the content rectangle
and expands with the detected color (a bare value when the color is a
1-tuple, the tuple itself otherwise). -/
def apply_plan (img : Img) (padding : Nat) : NormalizationPlan → Img
  | NormalizationPlan.skip => img
  | NormalizationPlan.addUniformBorder =>
    expand (default_fill_color img).2 padding (fillPixel (default_fill_color img).1)
  | NormalizationPlan.cropAndPad l t r b color =>
    expand (crop img l t r b) padding
      (fillPixel (if color.length = 1 then Fill.single color.headI else Fill.multi color))

/-- The externally observable file effect of processing one image:
a caught per-file error, no write (skip or dry-run), an in-place save, or a
save under the output directory.  `mkdirFirst` records whether
`output_dir.mkdir(parents=True, exist_ok=True)` was invoked before the
save (the source does this only at line 272, in the crop-and-pad branch). -/
inductive SaveEffect where
  | errorSkipped
  | noWrite
  | writeInPlace (result : Img)
  | writeToOutput (mkdirFirst : Bool) (result : Img)

/-- `process_image(file_path, padding, output_dir, dry_run)` reduced to its
decision and file effect.  Branch order follows the source: exception →
error; no uniform border → dry-run check, then expand and save (without
creating the output directory); uniform border → skip check, dry-run
check, then crop, expand, `mkdir` when an output directory is set, save. -/
def process_image (img : Img) (padding : Nat) (hasOutputDir dry_run : Bool) :
    SaveEffect :=
  match plan_image img padding with
  | Option.none => SaveEffect.errorSkipped
  | some NormalizationPlan.skip => SaveEffect.noWrite
  | some NormalizationPlan.addUniformBorder =>
    if dry_run then SaveEffect.noWrite
    else if hasOutputDir then
      SaveEffect.writeToOutput false (apply_plan img padding NormalizationPlan.addUniformBorder)
    else
      SaveEffect.writeInPlace (apply_plan img padding NormalizationPlan.addUniformBorder)
  | some (NormalizationPlan.cropAndPad l t r b color) =>
    if dry_run then SaveEffect.noWrite
    else if hasOutputDir then
      SaveEffect.writeToOutput true
        (apply_plan img padding (NormalizationPlan.cropAndPad l t r b color))
    else
      SaveEffect.writeInPlace
        (apply_plan img padding (NormalizationPlan.cropAndPad l t r b color))

/-- Whether a file effect writes an output image. -/
def writesFile : SaveEffect → Bool
  | SaveEffect.writeInPlace _ => true
  | SaveEffect.writeToOutput _ _ => true
  | SaveEffect.errorSkipped => false
  | SaveEffect.noWrite => false

/-- One file of a batch run: either `Image.open` raises (unreadable /
undecodable file) or it yields a decoded image. -/
inductive FileInput where
  | undecodable
  | decoded (img : Img)

/-- Processing one file of the batch: an undecodable file is caught by the
`try/except` of `process_image` and reported as a per-file error; a decoded
image goes through the normal pipeline. -/
def process_file (padding : Nat) (hasOutputDir dry_run : Bool) :
    FileInput → SaveEffect
  | FileInput.undecodable => SaveEffect.errorSkipped
  | FileInput.decoded img => process_image img padding hasOutputDir dry_run

/-- `process_directory` (lines 295-320): call `process_image` on each file
of the (sorted) list in order; `files` is the sorted file list. -/
def process_directory (padding : Nat) (hasOutputDir dry_run : Bool) :
    List FileInput → List SaveEffect
  | [] => []
  | f :: fs =>
    process_file padding hasOutputDir dry_run f ::
      process_directory padding hasOutputDir dry_run fs

/-- The pre-flight validation of `main` (lines 381-386) followed by the
batch run: a missing or non-directory root path halts the whole run
(`none`) before any file is touched. -/
def run_tool (dir_exists dir_is_dir : Bool) (files : List FileInput)
    (padding : Nat) (hasOutputDir dry_run : Bool) : Option (List SaveEffect) :=
  if dir_exists then
    if dir_is_dir then some (process_directory padding hasOutputDir dry_run files)
    else Option.none
  else Option.none

/-! ## Specification-side predicates for the boundary scans -/

/-- Column `x` contains at least one pixel whose normalized color differs
from `c` (the per-column predicate the left/right scans search for). -/
def colDiff (img : Img) (c : PixelColor) (x : Nat) : Bool :=
  (List.range img.height).any fun y => decide (normalizeCorner (img.pix x y) ≠ c)

/-- Row `y` contains at least one pixel whose normalized color differs
from `c` (the per-row predicate the top/bottom scans search for). -/
def rowDiff (img : Img) (c : PixelColor) (y : Nat) : Bool :=
  (List.range img.width).any fun x => decide (normalizeCorner (img.pix x y) ≠ c)

/-! ## Helper lemmas about the boundary scans -/

theorem scanNorm_eq_of_ne_absent (p : Pixel) (h : p ≠ Pixel.absent) :
    scanNorm p = some (normalizeCorner p) := by
  cases p with
  | num v => rfl
  | channels cs => rfl
  | absent => exact absurd rfl h

/-- When no pixel of the line is absent, the inner scan loop terminates
normally and reports exactly whether some pixel of the line differs from
the border color. -/
theorem scanLine_eq (g : Nat → Pixel) (c : PixelColor) :
    ∀ ys : List Nat, (∀ y ∈ ys, g y ≠ Pixel.absent) →
      scanLine g c ys = some (ys.any fun y => decide (normalizeCorner (g y) ≠ c))
  | [], _ => rfl
  | y :: ys, h => by
    have hy : g y ≠ Pixel.absent := h y (List.mem_cons_self y ys)
    have hrec := scanLine_eq g c ys (fun z hz => h z (List.mem_cons_of_mem y hz))
    simp only [scanLine, scanNorm_eq_of_ne_absent (g y) hy, List.any_cons]
    by_cases hd : normalizeCorner (g y) ≠ c
    · simp [hd]
    · simp [hd, hrec]

/-- When every line scan terminates normally, the outer loop returns the
first index whose line has content, or the fallback when none does:
exactly `List.find?` with a default. -/
theorem findBoundary_eq (f : Nat → Option Bool) (g : Nat → Bool) (d : Nat) :
    ∀ l : List Nat, (∀ i ∈ l, f i = some (g i)) →
      findBoundary f d l = some ((l.find? g).getD d)
  | [], _ => rfl
  | i :: is, h => by
    have hi : f i = some (g i) := h i (List.mem_cons_self i is)
    have hrec := findBoundary_eq f g d is (fun j hj => h j (List.mem_cons_of_mem i hj))
    simp only [findBoundary, hi]
    cases hgi : g i with
    | true => rw [List.find?_cons_of_pos _ hgi]; rfl
    | false => rw [List.find?_cons_of_neg _ (by simp [hgi])]; exact hrec

/-- `find?` over `range n` finds the least index satisfying the predicate. -/
theorem find_range_first (g : Nat → Bool) (i : Nat) (hgi : g i = true)
    (hmin : ∀ j, j < i → g j = false) :
    ∀ n : Nat, i < n → (List.range n).find? g = some i := by
  intro n
  induction n with
  | zero => omega
  | succ n ih =>
    intro hin
    rw [List.range_succ, List.find?_append]
    rcases Nat.lt_or_ge i n with hlt | hge
    · rw [ih hlt]; rfl
    · have hieq : i = n := by omega
      subst hieq
      have hnone : (List.range i).find? g = Option.none := by
        rw [List.find?_eq_none]
        intro x hx
        simp only [List.mem_range] at hx
        simp [hmin x hx]
      rw [hnone]
      simp [hgi]

/-- `find?` over `range n` finds nothing when the predicate never holds. -/
theorem find_range_none (g : Nat → Bool) (n : Nat)
    (h : ∀ j, j < n → g j = false) : (List.range n).find? g = Option.none := by
  rw [List.find?_eq_none]
  intro x hx
  simp only [List.mem_range] at hx
  simp [h x hx]

/-- `(range n).reverse` as a cons, for downward-scan inductions. -/
theorem range_reverse_succ (n : Nat) :
    (List.range (n + 1)).reverse = n :: (List.range n).reverse := by
  rw [List.range_succ, List.reverse_append]
  rfl

/-- `find?` over the reversed range finds the greatest index satisfying the
predicate. -/
theorem find_range_reverse_last (g : Nat → Bool) (i : Nat) (hgi : g i = true) :
    ∀ n : Nat, i < n → (∀ j, i < j → j < n → g j = false) →
      (List.range n).reverse.find? g = some i := by
  intro n
  induction n with
  | zero => omega
  | succ n ih =>
    intro hin hmax
    rw [range_reverse_succ]
    rcases Nat.lt_or_ge i n with hlt | hge
    · rw [List.find?_cons_of_neg _ (by simp [hmax n hlt (Nat.lt_succ_self n)])]
      exact ih hlt (fun j h1 h2 => hmax j h1 (Nat.lt_succ_of_lt h2))
    · have hieq : i = n := by omega
      subst hieq
      exact List.find?_cons_of_pos _ hgi

/-- `find?` over the reversed range finds nothing when the predicate never
holds. -/
theorem find_range_reverse_none (g : Nat → Bool) (n : Nat)
    (h : ∀ j, j < n → g j = false) :
    (List.range n).reverse.find? g = Option.none := by
  rw [List.find?_eq_none]
  intro x hx
  simp only [List.mem_reverse, List.mem_range] at hx
  simp [h x hx]

/-- `Nat.findGreatest` specialised to a boolean predicate. -/
theorem findGreatest_bool_spec (g : Nat → Bool) {m n : Nat} (hmn : m ≤ n)
    (hm : g m = true) : g (Nat.findGreatest (fun x => g x = true) n) = true :=
  @Nat.findGreatest_spec m (fun x => g x = true) (fun x => instDecidableEqBool (g x) true)
    n hmn hm

/-- Master description of `find_uniform_content_bounds` on a loaded image
with no absent pixels: each of the four scans reduces to a `find?` over the
column/row content predicates, with the source's fallbacks. -/
theorem bounds_eq (img : Img) (c : PixelColor) (p : Nat)
    (hload : img.loaded = true)
    (habs : ∀ x, x < img.width → ∀ y, y < img.height → img.pix x y ≠ Pixel.absent) :
    find_uniform_content_bounds img c p =
      some ⟨((List.range img.width).find? (colDiff img c)).getD 0,
            img.width - 1 -
              ((List.range img.width).reverse.find? (colDiff img c)).getD (img.width - 1),
            ((List.range img.height).find? (rowDiff img c)).getD 0,
            img.height - 1 -
              ((List.range img.height).reverse.find? (rowDiff img c)).getD (img.height - 1),
            ((List.range img.width).find? (colDiff img c)).getD 0,
            ((List.range img.height).find? (rowDiff img c)).getD 0,
            ((List.range img.width).reverse.find? (colDiff img c)).getD (img.width - 1) + 1,
            ((List.range img.height).reverse.find? (rowDiff img c)).getD (img.height - 1) + 1,
            Nat.max
              (Nat.max
                (Nat.max (((List.range img.width).find? (colDiff img c)).getD 0)
                  (img.width - 1 -
                    ((List.range img.width).reverse.find? (colDiff img c)).getD
                      (img.width - 1)))
                (((List.range img.height).find? (rowDiff img c)).getD 0))
              (img.height - 1 -
                ((List.range img.height).reverse.find? (rowDiff img c)).getD
                  (img.height - 1))⟩ := by
  have hcol : ∀ x ∈ List.range img.width,
      scanLine (fun y => img.pix x y) c (List.range img.height) = some (colDiff img c x) := by
    intro x hx
    simp only [List.mem_range] at hx
    exact scanLine_eq _ c _ (fun y hy => habs x hx y (List.mem_range.mp hy))
  have hcolr : ∀ x ∈ (List.range img.width).reverse,
      scanLine (fun y => img.pix x y) c (List.range img.height) = some (colDiff img c x) := by
    intro x hx
    exact hcol x (List.mem_reverse.mp hx)
  have hrow : ∀ y ∈ List.range img.height,
      scanLine (fun x => img.pix x y) c (List.range img.width) = some (rowDiff img c y) := by
    intro y hy
    simp only [List.mem_range] at hy
    exact scanLine_eq _ c _ (fun x hx => habs x (List.mem_range.mp hx) y hy)
  have hrowr : ∀ y ∈ (List.range img.height).reverse,
      scanLine (fun x => img.pix x y) c (List.range img.width) = some (rowDiff img c y) := by
    intro y hy
    exact hrow y (List.mem_reverse.mp hy)
  have h1 := findBoundary_eq _ (colDiff img c) 0 (List.range img.width) hcol
  have h2 := findBoundary_eq _ (colDiff img c) (img.width - 1)
    (List.range img.width).reverse hcolr
  have h3 := findBoundary_eq _ (rowDiff img c) 0 (List.range img.height) hrow
  have h4 := findBoundary_eq _ (rowDiff img c) (img.height - 1)
    (List.range img.height).reverse hrowr
  simp only [find_uniform_content_bounds, hload, if_true, h1, h2, h3, h4]

/-- Full behavioural description of the content-bounds scanner on a loaded
image with no absent pixels: `content_left` / `content_top` are the first
column / row containing a non-border pixel (default `0`),
`content_right - 1` / `content_bottom - 1` are the last such column / row
(default `width - 1` / `height - 1`), and the detected border widths and
`max_border` are the stated arithmetic combinations. -/
theorem scan_description (img : Img) (c : PixelColor) (p : Nat)
    (hw : 1 ≤ img.width) (hh : 1 ≤ img.height) (hload : img.loaded = true)
    (habs : ∀ x, x < img.width → ∀ y, y < img.height → img.pix x y ≠ Pixel.absent) :
    ∃ b : Bounds, find_uniform_content_bounds img c p = some b ∧
      ((∃ x, x < img.width ∧ colDiff img c x = true) →
        b.content_left < img.width ∧ colDiff img c b.content_left = true ∧
          ∀ j, j < b.content_left → colDiff img c j = false) ∧
      ((∀ x, x < img.width → colDiff img c x = false) → b.content_left = 0) ∧
      ((∃ x, x < img.width ∧ colDiff img c x = true) →
        b.content_right - 1 < img.width ∧ colDiff img c (b.content_right - 1) = true ∧
          ∀ j, b.content_right - 1 < j → j < img.width → colDiff img c j = false) ∧
      ((∀ x, x < img.width → colDiff img c x = false) →
        b.content_right - 1 = img.width - 1) ∧
      ((∃ y, y < img.height ∧ rowDiff img c y = true) →
        b.content_top < img.height ∧ rowDiff img c b.content_top = true ∧
          ∀ j, j < b.content_top → rowDiff img c j = false) ∧
      ((∀ y, y < img.height → rowDiff img c y = false) → b.content_top = 0) ∧
      ((∃ y, y < img.height ∧ rowDiff img c y = true) →
        b.content_bottom - 1 < img.height ∧ rowDiff img c (b.content_bottom - 1) = true ∧
          ∀ j, b.content_bottom - 1 < j → j < img.height → rowDiff img c j = false) ∧
      ((∀ y, y < img.height → rowDiff img c y = false) →
        b.content_bottom - 1 = img.height - 1) ∧
      1 ≤ b.content_right ∧ 1 ≤ b.content_bottom ∧
      b.left_border = b.content_left ∧
      b.right_border = img.width - 1 - (b.content_right - 1) ∧
      b.top_border = b.content_top ∧
      b.bottom_border = img.height - 1 - (b.content_bottom - 1) ∧
      b.max_border =
        Nat.max (Nat.max (Nat.max b.left_border b.right_border) b.top_border)
          b.bottom_border := by
  refine ⟨_, bounds_eq img c p hload habs,
    ?_, ?_, ?_, ?_, ?_, ?_, ?_, ?_, ?_, ?_, ?_, ?_, ?_, ?_, ?_⟩
  · -- first content column, when one exists
    intro hex
    have hspec := Nat.find_spec hex
    have hfind : (List.range img.width).find? (colDiff img c) = some (Nat.find hex) := by
      refine find_range_first _ _ hspec.2 (fun j hj => ?_) _ hspec.1
      cases hgj : colDiff img c j with
      | false => rfl
      | true => exact absurd ⟨lt_trans hj hspec.1, hgj⟩ (Nat.find_min hex hj)
    dsimp only
    rw [hfind]
    exact ⟨hspec.1, hspec.2, fun j hj => by
      cases hgj : colDiff img c j with
      | false => rfl
      | true => exact absurd ⟨lt_trans hj hspec.1, hgj⟩ (Nat.find_min hex hj)⟩
  · -- left default when the whole image matches the border color
    intro hall
    dsimp only
    rw [find_range_none _ _ hall]
    rfl
  · -- last content column, when one exists
    intro hex
    obtain ⟨m, hm1, hm2⟩ := hex
    have hmle : m ≤ img.width - 1 := by omega
    have hPR : colDiff img c
        (Nat.findGreatest (fun x => colDiff img c x = true) (img.width - 1)) = true :=
      findGreatest_bool_spec (colDiff img c) hmle hm2
    have hRle : Nat.findGreatest (fun x => colDiff img c x = true) (img.width - 1) ≤
        img.width - 1 := Nat.findGreatest_le _
    have hRlt : Nat.findGreatest (fun x => colDiff img c x = true) (img.width - 1) <
        img.width := by omega
    have hmax : ∀ j, Nat.findGreatest (fun x => colDiff img c x = true) (img.width - 1) < j →
        j < img.width → colDiff img c j = false := by
      intro j h1 h2
      cases hgj : colDiff img c j with
      | false => rfl
      | true => exact absurd hgj (Nat.findGreatest_is_greatest h1 (by omega))
    have hfind : (List.range img.width).reverse.find? (colDiff img c) =
        some (Nat.findGreatest (fun x => colDiff img c x = true) (img.width - 1)) :=
      find_range_reverse_last _ _ hPR _ hRlt hmax
    dsimp only
    rw [hfind]
    simpa using ⟨hRlt, hPR, hmax⟩
  · -- right default when the whole image matches the border color
    intro hall
    dsimp only
    rw [find_range_reverse_none _ _ hall]
    simp
  · -- first content row, when one exists
    intro hex
    have hspec := Nat.find_spec hex
    have hfind : (List.range img.height).find? (rowDiff img c) = some (Nat.find hex) := by
      refine find_range_first _ _ hspec.2 (fun j hj => ?_) _ hspec.1
      cases hgj : rowDiff img c j with
      | false => rfl
      | true => exact absurd ⟨lt_trans hj hspec.1, hgj⟩ (Nat.find_min hex hj)
    dsimp only
    rw [hfind]
    exact ⟨hspec.1, hspec.2, fun j hj => by
      cases hgj : rowDiff img c j with
      | false => rfl
      | true => exact absurd ⟨lt_trans hj hspec.1, hgj⟩ (Nat.find_min hex hj)⟩
  · -- top default
    intro hall
    dsimp only
    rw [find_range_none _ _ hall]
    rfl
  · -- last content row, when one exists
    intro hex
    obtain ⟨m, hm1, hm2⟩ := hex
    have hmle : m ≤ img.height - 1 := by omega
    have hPR : rowDiff img c
        (Nat.findGreatest (fun y => rowDiff img c y = true) (img.height - 1)) = true :=
      findGreatest_bool_spec (rowDiff img c) hmle hm2
    have hRle : Nat.findGreatest (fun y => rowDiff img c y = true) (img.height - 1) ≤
        img.height - 1 := Nat.findGreatest_le _
    have hRlt : Nat.findGreatest (fun y => rowDiff img c y = true) (img.height - 1) <
        img.height := by omega
    have hmax : ∀ j, Nat.findGreatest (fun y => rowDiff img c y = true) (img.height - 1) < j →
        j < img.height → rowDiff img c j = false := by
      intro j h1 h2
      cases hgj : rowDiff img c j with
      | false => rfl
      | true => exact absurd hgj (Nat.findGreatest_is_greatest h1 (by omega))
    have hfind : (List.range img.height).reverse.find? (rowDiff img c) =
        some (Nat.findGreatest (fun y => rowDiff img c y = true) (img.height - 1)) :=
      find_range_reverse_last _ _ hPR _ hRlt hmax
    dsimp only
    rw [hfind]
    simpa using ⟨hRlt, hPR, hmax⟩
  · -- bottom default
    intro hall
    dsimp only
    rw [find_range_reverse_none _ _ hall]
    simp
  · dsimp only
    omega
  · dsimp only
    omega
  · rfl
  · dsimp only
    omega
  · rfl
  · dsimp only
    omega
  · dsimp only

/-- `get_border_color` returns the normalized top-left corner exactly when
the other three normalized corners equal it, and `None` otherwise. -/
theorem get_border_color_eq (img : Img) :
    get_border_color img =
      (if normalizeCorner (img.pix (img.width - 1) 0) = normalizeCorner (img.pix 0 0) ∧
          normalizeCorner (img.pix 0 (img.height - 1)) = normalizeCorner (img.pix 0 0) ∧
          normalizeCorner (img.pix (img.width - 1) (img.height - 1)) =
            normalizeCorner (img.pix 0 0) then
        some (normalizeCorner (img.pix 0 0))
      else Option.none) := by
  by_cases h1 : normalizeCorner (img.pix (img.width - 1) 0) = normalizeCorner (img.pix 0 0)
  · by_cases h2 : normalizeCorner (img.pix 0 (img.height - 1)) =
        normalizeCorner (img.pix 0 0)
    · by_cases h3 : normalizeCorner (img.pix (img.width - 1) (img.height - 1)) =
          normalizeCorner (img.pix 0 0)
      · simp [get_border_color, h1, h2, h3]
      · simp [get_border_color, h1, h2, h3]
    · simp [get_border_color, h1, h2]
  · simp [get_border_color, h1]

/-- A column with no differing pixel reports no content. -/
theorem colDiff_false (img : Img) (c : PixelColor) (x : Nat)
    (h : ∀ y, y < img.height → normalizeCorner (img.pix x y) = c) :
    colDiff img c x = false := by
  simp only [colDiff, List.any_eq_false, List.mem_range, decide_eq_true_eq]
  intro y hy
  simp [h y hy]

/-- A column holding one differing pixel reports content. -/
theorem colDiff_true (img : Img) (c : PixelColor) (x y : Nat) (hy : y < img.height)
    (hne : normalizeCorner (img.pix x y) ≠ c) : colDiff img c x = true := by
  simp only [colDiff, List.any_eq_true, List.mem_range, decide_eq_true_eq]
  exact ⟨y, hy, hne⟩

/-- A row with no differing pixel reports no content. -/
theorem rowDiff_false (img : Img) (c : PixelColor) (y : Nat)
    (h : ∀ x, x < img.width → normalizeCorner (img.pix x y) = c) :
    rowDiff img c y = false := by
  simp only [rowDiff, List.any_eq_false, List.mem_range, decide_eq_true_eq]
  intro x hx
  simp [h x hx]

/-- A row holding one differing pixel reports content. -/
theorem rowDiff_true (img : Img) (c : PixelColor) (x y : Nat) (hx : x < img.width)
    (hne : normalizeCorner (img.pix x y) ≠ c) : rowDiff img c y = true := by
  simp only [rowDiff, List.any_eq_true, List.mem_range, decide_eq_true_eq]
  exact ⟨x, hx, hne⟩

/-- The crop-and-pad fill of lines 263-266 paints pixels whose normalized
color is exactly the detected border color. -/
theorem fill_norm (c : PixelColor) :
    normalizeCorner
      (fillPixel (if c.length = 1 then Fill.single c.headI else Fill.multi c)) = c := by
  match c with
  | [] => rfl
  | [v] => rfl
  | v :: w :: t => rfl

/-- On an image carrying a uniform border of exactly `bd ≥ 1` pixels of
(normalized) color `c` on every edge — every frame pixel matches `c`, and
the first content column/row on each side holds a differing pixel — the
scanner detects border widths `bd` on all four sides and the tight content
rectangle `(bd, bd, width - bd, height - bd)`. -/
theorem exact_border_bounds (img : Img) (c : PixelColor) (bd p : Nat)
    (hbd : 1 ≤ bd) (hw : 2 * bd < img.width) (hh : 2 * bd < img.height)
    (hload : img.loaded = true)
    (habs : ∀ x, x < img.width → ∀ y, y < img.height → img.pix x y ≠ Pixel.absent)
    (hframe : ∀ x, x < img.width → ∀ y, y < img.height →
      (x < bd ∨ img.width - bd ≤ x ∨ y < bd ∨ img.height - bd ≤ y) →
      normalizeCorner (img.pix x y) = c)
    (hcl : ∃ y, y < img.height ∧ normalizeCorner (img.pix bd y) ≠ c)
    (hcr : ∃ y, y < img.height ∧ normalizeCorner (img.pix (img.width - 1 - bd) y) ≠ c)
    (hct : ∃ x, x < img.width ∧ normalizeCorner (img.pix x bd) ≠ c)
    (hcb : ∃ x, x < img.width ∧ normalizeCorner (img.pix x (img.height - 1 - bd)) ≠ c) :
    find_uniform_content_bounds img c p =
      some ⟨bd, bd, bd, bd, bd, bd, img.width - bd, img.height - bd, bd⟩ := by
  rw [bounds_eq img c p hload habs]
  have hfirstcol : (List.range img.width).find? (colDiff img c) = some bd := by
    obtain ⟨y, hy1, hy2⟩ := hcl
    refine find_range_first _ _ (colDiff_true img c bd y hy1 hy2) ?_ _ (by omega)
    intro j hj
    exact colDiff_false img c j
      (fun y hy => hframe j (by omega) y hy (Or.inl hj))
  have hlastcol : (List.range img.width).reverse.find? (colDiff img c) =
      some (img.width - 1 - bd) := by
    obtain ⟨y, hy1, hy2⟩ := hcr
    refine find_range_reverse_last _ _
      (colDiff_true img c (img.width - 1 - bd) y hy1 hy2) _ (by omega) ?_
    intro j h1 h2
    exact colDiff_false img c j
      (fun y hy => hframe j h2 y hy (Or.inr (Or.inl (by omega))))
  have hfirstrow : (List.range img.height).find? (rowDiff img c) = some bd := by
    obtain ⟨x, hx1, hx2⟩ := hct
    refine find_range_first _ _ (rowDiff_true img c x bd hx1 hx2) ?_ _ (by omega)
    intro j hj
    exact rowDiff_false img c j
      (fun x hx => hframe x hx j (by omega) (Or.inr (Or.inr (Or.inl hj))))
  have hlastrow : (List.range img.height).reverse.find? (rowDiff img c) =
      some (img.height - 1 - bd) := by
    obtain ⟨x, hx1, hx2⟩ := hcb
    refine find_range_reverse_last _ _
      (rowDiff_true img c x (img.height - 1 - bd) hx1 hx2) _ (by omega) ?_
    intro j h1 h2
    exact rowDiff_false img c j
      (fun x hx => hframe x hx j h2 (Or.inr (Or.inr (Or.inr (by omega)))))
  rw [hfirstcol, hlastcol, hfirstrow, hlastrow]
  have e1 : img.width - 1 - (img.width - 1 - bd) = bd := by omega
  have e2 : img.height - 1 - (img.height - 1 - bd) = bd := by omega
  have e3 : img.width - 1 - bd + 1 = img.width - bd := by omega
  have e4 : img.height - 1 - bd + 1 = img.height - bd := by omega
  simp only [Option.getD_some, e1, e2, e3, e4, Nat.max_self]

/-! ## Concrete example images -/

/-- The spec's concrete scenario: a 100×100 grayscale image, pure black
border 10px wide on all sides around an 80×80 non-black (value 128)
content region. -/
def demo100 : Img :=
  ⟨100, 100, Mode.L,
    fun x y => if 10 ≤ x ∧ x < 90 ∧ 10 ≤ y ∧ y < 90 then Pixel.num 128 else Pixel.num 0,
    true⟩

/-- A 4×3 grayscale image whose single content pixel sits at `(2, 1)`. -/
def demoMixed : Img :=
  ⟨4, 3, Mode.L,
    fun x y => if x = 2 ∧ y = 1 then Pixel.num 5 else Pixel.num 0,
    true⟩

/-- A 3×3 RGB image that is entirely one color. -/
def uni3 : Img := ⟨3, 3, Mode.RGB, fun _ _ => Pixel.channels [7, 7, 7], true⟩

/-- A 2×2 RGB image whose top-left corner differs from the other three. -/
def nonUni : Img :=
  ⟨2, 2, Mode.RGB,
    fun x y =>
      if x = 0 ∧ y = 0 then Pixel.channels [1, 2, 3] else Pixel.channels [9, 9, 9],
    true⟩

/-- An 8×8 grayscale image already normalized with a uniform border of
exactly 2 pixels of value 1 around a 4×4 content block of value 9. -/
def norm8 : Img :=
  ⟨8, 8, Mode.L,
    fun x y => if 2 ≤ x ∧ x < 6 ∧ 2 ≤ y ∧ y < 6 then Pixel.num 9 else Pixel.num 1,
    true⟩

/-- A 5×4 image whose `load()` returns no pixel-access object
(the scanner's early-fallback case). -/
def notLoaded : Img := ⟨5, 4, Mode.L, fun _ _ => Pixel.num 0, false⟩

/-! ## Claims -/

/-- C8: for every input image and every plan type, processing in dry-run
mode writes no output image file (the input is a value of the pure
embedding and is never altered: the only effects are the returned
`SaveEffect`). -/
theorem C8_dry_run_never_writes (img : Img) (p : Nat) (hasOut : Bool) :
    writesFile (process_image img p hasOut true) = false := by
  unfold process_image
  cases plan_image img p with
  | none => rfl
  | some pl =>
    cases pl with
    | skip => rfl
    | addUniformBorder => rfl
    | cropAndPad l t r b color => rfl

/-- C9: each file of a batch yields exactly one per-file result, computed
independently of every other file (so a failing file is reported and
skipped, and processing continues in order); an undecodable file is the
per-file error case; and only the pre-flight validation of the root
directory path halts the whole run. -/
theorem C9_per_file_error_isolation (files : List FileInput) (p : Nat)
    (ho d de di : Bool) :
    process_directory p ho d files = files.map (process_file p ho d) ∧
    process_file p ho d FileInput.undecodable = SaveEffect.errorSkipped ∧
    run_tool de di files p ho d =
      (if de && di then some (process_directory p ho d files) else Option.none) := by
  refine ⟨?_, rfl, ?_⟩
  · induction files with
    | nil => rfl
    | cons f fs ih => simp only [process_directory, List.map_cons, ih]
  · cases de <;> cases di <;> rfl

/-- C10 (counterexample): a live run with an output directory configured,
on an image whose corners do not all match, writes the output file under
the output directory WITHOUT creating the directory first (the
`mkdir` call at line 272 exists only in the crop-and-pad branch, not in
the add-border branch at lines 193-199). -/
theorem C10_counterexample :
    process_image nonUni 5 true false =
      SaveEffect.writeToOutput false (apply_plan nonUni 5 NormalizationPlan.addUniformBorder) ∧
    writesFile (process_image nonUni 5 true false) = true :=
  ⟨rfl, rfl⟩

/-- C10 (amended): in live mode with an output directory configured, the
crop-and-pad path creates the output directory (if absent) before writing
the same-named output file under it; the add-border path writes the
same-named output file under the output directory without creating it. -/
theorem C10_mkdir_only_on_crop_path (img : Img) (p : Nat) :
    (∀ l t r b c, plan_image img p = some (NormalizationPlan.cropAndPad l t r b c) →
      process_image img p true false =
        SaveEffect.writeToOutput true
          (apply_plan img p (NormalizationPlan.cropAndPad l t r b c))) ∧
    (plan_image img p = some NormalizationPlan.addUniformBorder →
      process_image img p true false =
        SaveEffect.writeToOutput false
          (apply_plan img p NormalizationPlan.addUniformBorder)) := by
  constructor
  · intro l t r b c hplan
    unfold process_image
    rw [hplan]
    rfl
  · intro hplan
    unfold process_image
    rw [hplan]
    rfl

/-- With a uniform detection and a completed scan, the decision of
`process_image` reduces to the skip test on `max_border` and `padding`. -/
theorem plan_image_uniform (img : Img) (c : PixelColor) (p : Nat) (b : Bounds)
    (hg : get_border_color img = some c)
    (hb : find_uniform_content_bounds img c p = some b) :
    plan_image img p =
      (if b.max_border = 0 ∧ p = 0 then some NormalizationPlan.skip
       else some (NormalizationPlan.cropAndPad b.content_left b.content_top
         b.content_right b.content_bottom c)) := by
  simp only [plan_image, hg, hb]

/-- C2: for every image with positive dimensions, the border-color detector
is a function of exactly the four corner pixels, normalizes each corner
(a numeric pixel to a 1-tuple, an absent pixel to `(0,)`, a tuple to
itself), returns the shared color exactly when all four normalized corners
are pairwise equal, and `None` otherwise (the embedding is a pure
function, so there are no side effects). -/
theorem C2_border_color_detector (img : Img)
    (hw : 1 ≤ img.width) (hh : 1 ≤ img.height) :
    (get_border_color img =
      (if normalizeCorner (img.pix (img.width - 1) 0) = normalizeCorner (img.pix 0 0) ∧
          normalizeCorner (img.pix 0 (img.height - 1)) = normalizeCorner (img.pix 0 0) ∧
          normalizeCorner (img.pix (img.width - 1) (img.height - 1)) =
            normalizeCorner (img.pix 0 0) then
        some (normalizeCorner (img.pix 0 0))
      else Option.none)) ∧
    (∀ img2 : Img, img2.width = img.width → img2.height = img.height →
      img2.pix 0 0 = img.pix 0 0 →
      img2.pix (img2.width - 1) 0 = img.pix (img.width - 1) 0 →
      img2.pix 0 (img2.height - 1) = img.pix 0 (img.height - 1) →
      img2.pix (img2.width - 1) (img2.height - 1) =
        img.pix (img.width - 1) (img.height - 1) →
      get_border_color img2 = get_border_color img) ∧
    (∀ v, normalizeCorner (Pixel.num v) = [v]) ∧
    normalizeCorner Pixel.absent = [0] ∧
    (∀ cs, normalizeCorner (Pixel.channels cs) = cs) := by
  refine ⟨get_border_color_eq img, ?_, fun v => rfl, rfl, fun cs => rfl⟩
  intro img2 hww hhh h00 h10 h01 h11
  rw [hww] at h10 h11
  rw [hhh] at h01 h11
  rw [get_border_color_eq img2, get_border_color_eq img, hww, hhh, h00, h10, h01, h11]

theorem C2_witness :
    1 ≤ uni3.width ∧ 1 ≤ uni3.height ∧ get_border_color uni3 = some [7, 7, 7] :=
  ⟨by decide, by decide,
    ((C2_border_color_detector uni3 (by decide) (by decide)).1).trans (by decide)⟩

/-- C4: for every image whose four (normalized) corners do not all match,
the plan is the add-border plan: the output has each dimension increased by
`2 * targetPadding`, the added frame is filled with white matched to the
image's channel mode (a bare `255` for the single-channel mode `'L'`, a
full-white tuple for `'RGB'`/`'RGBA'`, and images in any other mode are
first converted to a 3-channel color mode), and the original image sits
unmodified inside the frame. -/
theorem C4_nonuniform_adds_border (img : Img) (p : Nat)
    (hmm : ¬(normalizeCorner (img.pix (img.width - 1) 0) = normalizeCorner (img.pix 0 0) ∧
        normalizeCorner (img.pix 0 (img.height - 1)) = normalizeCorner (img.pix 0 0) ∧
        normalizeCorner (img.pix (img.width - 1) (img.height - 1)) =
          normalizeCorner (img.pix 0 0))) :
    get_border_color img = Option.none ∧
    plan_image img p = some NormalizationPlan.addUniformBorder ∧
    (apply_plan img p NormalizationPlan.addUniformBorder).width = img.width + 2 * p ∧
    (apply_plan img p NormalizationPlan.addUniformBorder).height = img.height + 2 * p ∧
    (∀ x y, ¬(p ≤ x ∧ x < p + img.width ∧ p ≤ y ∧ y < p + img.height) →
      (apply_plan img p NormalizationPlan.addUniformBorder).pix x y =
        fillPixel (default_fill_color img).1) ∧
    (img.mode ≠ Mode.other → ∀ x, x < img.width → ∀ y, y < img.height →
      (apply_plan img p NormalizationPlan.addUniformBorder).pix (p + x) (p + y) =
        img.pix x y) ∧
    (img.mode = Mode.L → (default_fill_color img).1 = Fill.single 255) ∧
    (img.mode = Mode.RGB → (default_fill_color img).1 = Fill.multi [255, 255, 255]) ∧
    (img.mode = Mode.RGBA → (default_fill_color img).1 = Fill.multi [255, 255, 255, 255]) ∧
    (img.mode = Mode.other → (default_fill_color img).1 = Fill.multi [255, 255, 255] ∧
      (default_fill_color img).2 = convert_rgb img ∧
      (convert_rgb img).mode = Mode.RGB ∧
      (convert_rgb img).width = img.width ∧ (convert_rgb img).height = img.height) := by
  have hg : get_border_color img = Option.none := by
    rw [get_border_color_eq]
    exact if_neg hmm
  have hsnd : (default_fill_color img).2.width = img.width ∧
      (default_fill_color img).2.height = img.height := by
    cases hm : img.mode <;> simp [default_fill_color, hm, convert_rgb]
  refine ⟨hg, ?_, ?_, ?_, ?_, ?_, ?_, ?_, ?_, ?_⟩
  · unfold plan_image
    rw [hg]
  · simp only [apply_plan, expand]
    omega
  · simp only [apply_plan, expand]
    omega
  · intro x y hout
    simp only [apply_plan, expand]
    rw [if_neg]
    omega
  · intro hmode x hx y hy
    have h2 : (default_fill_color img).2 = img := by
      cases hm : img.mode with
      | L => simp [default_fill_color, hm]
      | RGB => simp [default_fill_color, hm]
      | RGBA => simp [default_fill_color, hm]
      | other => exact absurd hm hmode
    simp only [apply_plan, expand, h2]
    rw [if_pos (by omega)]
    have ex : p + x - p = x := by omega
    have ey : p + y - p = y := by omega
    rw [ex, ey]
  · intro hm
    simp [default_fill_color, hm]
  · intro hm
    simp [default_fill_color, hm]
  · intro hm
    simp [default_fill_color, hm]
  · intro hm
    simp [default_fill_color, hm, convert_rgb]

theorem C4_witness :
    ¬(normalizeCorner (nonUni.pix (nonUni.width - 1) 0) = normalizeCorner (nonUni.pix 0 0) ∧
        normalizeCorner (nonUni.pix 0 (nonUni.height - 1)) =
          normalizeCorner (nonUni.pix 0 0) ∧
        normalizeCorner (nonUni.pix (nonUni.width - 1) (nonUni.height - 1)) =
          normalizeCorner (nonUni.pix 0 0)) ∧
    get_border_color nonUni = Option.none ∧
    plan_image nonUni 3 = some NormalizationPlan.addUniformBorder ∧
    (apply_plan nonUni 3 NormalizationPlan.addUniformBorder).width = nonUni.width + 2 * 3 ∧
    (apply_plan nonUni 3 NormalizationPlan.addUniformBorder).height = nonUni.height + 2 * 3 :=
  ⟨by decide,
    (C4_nonuniform_adds_border nonUni 3 (by decide)).1,
    (C4_nonuniform_adds_border nonUni 3 (by decide)).2.1,
    (C4_nonuniform_adds_border nonUni 3 (by decide)).2.2.1,
    (C4_nonuniform_adds_border nonUni 3 (by decide)).2.2.2.1⟩

/-- C5: for every image whose detection is uniform and whose scan
completes, the plan is `Skip` exactly when `max_border = 0` and
`targetPadding = 0`, and otherwise crop-and-pad to the tight content
rectangle with the detected color; in particular, on an image in which no
pixel differs from the shared corner color anywhere, `max_border = 0` and
zero padding gives the `Skip` plan. -/
theorem C5_skip_decision (img : Img) (c : PixelColor) (p : Nat) (b : Bounds)
    (hg : get_border_color img = some c)
    (hb : find_uniform_content_bounds img c p = some b) :
    (b.max_border = 0 ∧ p = 0 → plan_image img p = some NormalizationPlan.skip) ∧
    (¬(b.max_border = 0 ∧ p = 0) →
      plan_image img p = some (NormalizationPlan.cropAndPad b.content_left b.content_top
        b.content_right b.content_bottom c)) ∧
    (p = 0 → img.loaded = true → 1 ≤ img.width → 1 ≤ img.height →
      (∀ x, x < img.width → ∀ y, y < img.height →
        img.pix x y ≠ Pixel.absent ∧ normalizeCorner (img.pix x y) = c) →
      b.max_border = 0 ∧ plan_image img 0 = some NormalizationPlan.skip) := by
  have hplan := plan_image_uniform img c p b hg hb
  refine ⟨fun hc => by rw [hplan, if_pos hc], fun hc => by rw [hplan, if_neg hc], ?_⟩
  intro hp hload hwi hhi hall
  subst hp
  have habs : ∀ x, x < img.width → ∀ y, y < img.height → img.pix x y ≠ Pixel.absent :=
    fun x hx y hy => (hall x hx y hy).1
  have hcols : ∀ j, j < img.width → colDiff img c j = false :=
    fun j hj => colDiff_false img c j (fun y hy => (hall j hj y hy).2)
  have hrows : ∀ j, j < img.height → rowDiff img c j = false :=
    fun j hj => rowDiff_false img c j (fun x hx => (hall x hx j hj).2)
  have hbe := bounds_eq img c 0 hload habs
  rw [find_range_none _ _ hcols, find_range_reverse_none _ _ hcols,
    find_range_none _ _ hrows, find_range_reverse_none _ _ hrows] at hbe
  simp only [Option.getD_none, Nat.sub_self, Nat.max_self] at hbe
  have hbv : b = ⟨0, 0, 0, 0, 0, 0, img.width - 1 + 1, img.height - 1 + 1, 0⟩ :=
    Option.some.inj (hb.symm.trans hbe)
  have hmax : b.max_border = 0 := by rw [hbv]
  exact ⟨hmax, by rw [hplan, if_pos ⟨hmax, rfl⟩]⟩

theorem C5_witness :
    get_border_color uni3 = some [7, 7, 7] ∧
    find_uniform_content_bounds uni3 [7, 7, 7] 0 = some ⟨0, 0, 0, 0, 0, 0, 3, 3, 0⟩ ∧
    plan_image uni3 0 = some NormalizationPlan.skip :=
  ⟨rfl, rfl,
    (C5_skip_decision uni3 [7, 7, 7] 0 ⟨0, 0, 0, 0, 0, 0, 3, 3, 0⟩ rfl rfl).1 ⟨rfl, rfl⟩⟩

/-- The corners of an image with a frame of width `bd ≥ 1` of color `c`
normalize to `c`, so detection returns `Uniform(c)`. -/
theorem get_border_color_of_frame (img : Img) (c : PixelColor) (bd : Nat)
    (hbd : 1 ≤ bd) (hw : 2 * bd < img.width) (hh : 2 * bd < img.height)
    (hframe : ∀ x, x < img.width → ∀ y, y < img.height →
      (x < bd ∨ img.width - bd ≤ x ∨ y < bd ∨ img.height - bd ≤ y) →
      normalizeCorner (img.pix x y) = c) :
    get_border_color img = some c := by
  rw [get_border_color_eq]
  have h00 : normalizeCorner (img.pix 0 0) = c :=
    hframe 0 (by omega) 0 (by omega) (Or.inl (by omega))
  have h10 : normalizeCorner (img.pix (img.width - 1) 0) = c :=
    hframe (img.width - 1) (by omega) 0 (by omega) (Or.inr (Or.inl (by omega)))
  have h01 : normalizeCorner (img.pix 0 (img.height - 1)) = c :=
    hframe 0 (by omega) (img.height - 1) (by omega) (Or.inl (by omega))
  have h11 : normalizeCorner (img.pix (img.width - 1) (img.height - 1)) = c :=
    hframe (img.width - 1) (by omega) (img.height - 1) (by omega)
      (Or.inr (Or.inl (by omega)))
  rw [h00, h10, h01, h11]
  simp

/-- C3: for every image with a uniform border of exactly `bd` pixels on
every edge and target padding `p`, the scanner detects border widths `bd`
on all four sides with content rectangle
`(bd, bd, width - bd, height - bd)`, the plan is crop-and-pad, and the
output image has dimensions
`(width - 2*bd + 2*p, height - 2*bd + 2*p)`. -/
theorem C3_crop_and_pad_dimensions (img : Img) (c : PixelColor) (bd p : Nat)
    (hbd : 1 ≤ bd) (hw : 2 * bd < img.width) (hh : 2 * bd < img.height)
    (hload : img.loaded = true)
    (habs : ∀ x, x < img.width → ∀ y, y < img.height → img.pix x y ≠ Pixel.absent)
    (hframe : ∀ x, x < img.width → ∀ y, y < img.height →
      (x < bd ∨ img.width - bd ≤ x ∨ y < bd ∨ img.height - bd ≤ y) →
      normalizeCorner (img.pix x y) = c)
    (hcl : ∃ y, y < img.height ∧ normalizeCorner (img.pix bd y) ≠ c)
    (hcr : ∃ y, y < img.height ∧ normalizeCorner (img.pix (img.width - 1 - bd) y) ≠ c)
    (hct : ∃ x, x < img.width ∧ normalizeCorner (img.pix x bd) ≠ c)
    (hcb : ∃ x, x < img.width ∧ normalizeCorner (img.pix x (img.height - 1 - bd)) ≠ c) :
    get_border_color img = some c ∧
    find_uniform_content_bounds img c p =
      some ⟨bd, bd, bd, bd, bd, bd, img.width - bd, img.height - bd, bd⟩ ∧
    plan_image img p =
      some (NormalizationPlan.cropAndPad bd bd (img.width - bd) (img.height - bd) c) ∧
    (apply_plan img p
      (NormalizationPlan.cropAndPad bd bd (img.width - bd) (img.height - bd) c)).width =
      img.width - 2 * bd + 2 * p ∧
    (apply_plan img p
      (NormalizationPlan.cropAndPad bd bd (img.width - bd) (img.height - bd) c)).height =
      img.height - 2 * bd + 2 * p := by
  have hb := exact_border_bounds img c bd p hbd hw hh hload habs hframe hcl hcr hct hcb
  have hg := get_border_color_of_frame img c bd hbd hw hh hframe
  refine ⟨hg, hb, ?_, ?_, ?_⟩
  · rw [plan_image_uniform img c p _ hg hb, if_neg (by dsimp only; omega)]
  · simp only [apply_plan, expand, crop]
    omega
  · simp only [apply_plan, expand, crop]
    omega

set_option maxRecDepth 40000 in
theorem C3_witness :
    get_border_color demo100 = some [0] ∧
    find_uniform_content_bounds demo100 [0] 5 =
      some ⟨10, 10, 10, 10, 10, 10, 90, 90, 10⟩ ∧
    plan_image demo100 5 = some (NormalizationPlan.cropAndPad 10 10 90 90 [0]) ∧
    (apply_plan demo100 5 (NormalizationPlan.cropAndPad 10 10 90 90 [0])).width = 90 ∧
    (apply_plan demo100 5 (NormalizationPlan.cropAndPad 10 10 90 90 [0])).height = 90 :=
  C3_crop_and_pad_dimensions demo100 [0] 10 5 (by decide) (by decide) (by decide) rfl
    (by decide) (by decide) (by decide) (by decide) (by decide) (by decide)

/-- C6: processing is idempotent on pixel content: an already-normalized
image (uniform border of exactly `p ≥ 1` pixels of color `c` on every
edge) is re-detected as uniform with `max_border = p`, the crop recovers
the same content rectangle `(p, p, width - p, height - p)`, and re-padding
with the detected color yields an image of the same dimensions whose
normalized pixel content equals the input's everywhere. -/
theorem C6_idempotent_on_normalized (img : Img) (c : PixelColor) (p : Nat)
    (hp : 1 ≤ p) (hw : 2 * p < img.width) (hh : 2 * p < img.height)
    (hload : img.loaded = true)
    (habs : ∀ x, x < img.width → ∀ y, y < img.height → img.pix x y ≠ Pixel.absent)
    (hframe : ∀ x, x < img.width → ∀ y, y < img.height →
      (x < p ∨ img.width - p ≤ x ∨ y < p ∨ img.height - p ≤ y) →
      normalizeCorner (img.pix x y) = c)
    (hcl : ∃ y, y < img.height ∧ normalizeCorner (img.pix p y) ≠ c)
    (hcr : ∃ y, y < img.height ∧ normalizeCorner (img.pix (img.width - 1 - p) y) ≠ c)
    (hct : ∃ x, x < img.width ∧ normalizeCorner (img.pix x p) ≠ c)
    (hcb : ∃ x, x < img.width ∧ normalizeCorner (img.pix x (img.height - 1 - p)) ≠ c) :
    get_border_color img = some c ∧
    find_uniform_content_bounds img c p =
      some ⟨p, p, p, p, p, p, img.width - p, img.height - p, p⟩ ∧
    plan_image img p =
      some (NormalizationPlan.cropAndPad p p (img.width - p) (img.height - p) c) ∧
    (apply_plan img p
      (NormalizationPlan.cropAndPad p p (img.width - p) (img.height - p) c)).width =
      img.width ∧
    (apply_plan img p
      (NormalizationPlan.cropAndPad p p (img.width - p) (img.height - p) c)).height =
      img.height ∧
    (∀ x, x < img.width → ∀ y, y < img.height →
      normalizeCorner ((apply_plan img p
        (NormalizationPlan.cropAndPad p p (img.width - p) (img.height - p) c)).pix x y) =
        normalizeCorner (img.pix x y)) := by
  have hb := exact_border_bounds img c p p hp hw hh hload habs hframe hcl hcr hct hcb
  have hg := get_border_color_of_frame img c p hp hw hh hframe
  refine ⟨hg, hb, ?_, ?_, ?_, ?_⟩
  · rw [plan_image_uniform img c p _ hg hb, if_neg (by dsimp only; omega)]
  · simp only [apply_plan, expand, crop]
    omega
  · simp only [apply_plan, expand, crop]
    omega
  · intro x hx y hy
    simp only [apply_plan, expand, crop]
    by_cases hin : p ≤ x ∧ x < p + (img.width - p - p) ∧ p ≤ y ∧ y < p + (img.height - p - p)
    · rw [if_pos hin]
      have e1 : p + (x - p) = x := by omega
      have e2 : p + (y - p) = y := by omega
      rw [e1, e2]
    · rw [if_neg hin]
      rw [fill_norm c, hframe x hx y hy (by omega)]

theorem C6_witness :
    get_border_color norm8 = some [1] ∧
    find_uniform_content_bounds norm8 [1] 2 = some ⟨2, 2, 2, 2, 2, 2, 6, 6, 2⟩ ∧
    plan_image norm8 2 = some (NormalizationPlan.cropAndPad 2 2 6 6 [1]) ∧
    (apply_plan norm8 2 (NormalizationPlan.cropAndPad 2 2 6 6 [1])).width = norm8.width ∧
    (apply_plan norm8 2 (NormalizationPlan.cropAndPad 2 2 6 6 [1])).height = norm8.height ∧
    (∀ x, x < norm8.width → ∀ y, y < norm8.height →
      normalizeCorner ((apply_plan norm8 2
        (NormalizationPlan.cropAndPad 2 2 6 6 [1])).pix x y) =
        normalizeCorner (norm8.pix x y)) :=
  C6_idempotent_on_normalized norm8 [1] 2 (by decide) (by decide) (by decide) rfl
    (by decide) (by decide) (by decide) (by decide) (by decide) (by decide)

/-- C1: for every (loaded, absent-free) image and every border color, the
scanner returns `content_left` equal to the index of the first column
containing at least one pixel differing from the border color (default 0
when every pixel matches), symmetrically the last such column
(`content_right` is that index plus one, exclusive), and the first / last
such rows for top and bottom; the detected border widths satisfy
`left_border = content_left`,
`right_border = width - 1 - contentRightInclusive`,
`top_border = content_top`,
`bottom_border = height - 1 - contentBottomInclusive`, and `max_border`
is the maximum of the four. -/
theorem C1_content_bounds_scanner (img : Img) (c : PixelColor) (p : Nat)
    (hw : 1 ≤ img.width) (hh : 1 ≤ img.height) (hload : img.loaded = true)
    (habs : ∀ x, x < img.width → ∀ y, y < img.height → img.pix x y ≠ Pixel.absent) :
    ∃ b : Bounds, find_uniform_content_bounds img c p = some b ∧
      ((∃ x, x < img.width ∧ colDiff img c x = true) →
        b.content_left < img.width ∧ colDiff img c b.content_left = true ∧
          ∀ j, j < b.content_left → colDiff img c j = false) ∧
      ((∀ x, x < img.width → colDiff img c x = false) → b.content_left = 0) ∧
      ((∃ x, x < img.width ∧ colDiff img c x = true) →
        b.content_right - 1 < img.width ∧ colDiff img c (b.content_right - 1) = true ∧
          ∀ j, b.content_right - 1 < j → j < img.width → colDiff img c j = false) ∧
      ((∀ x, x < img.width → colDiff img c x = false) →
        b.content_right - 1 = img.width - 1) ∧
      ((∃ y, y < img.height ∧ rowDiff img c y = true) →
        b.content_top < img.height ∧ rowDiff img c b.content_top = true ∧
          ∀ j, j < b.content_top → rowDiff img c j = false) ∧
      ((∀ y, y < img.height → rowDiff img c y = false) → b.content_top = 0) ∧
      ((∃ y, y < img.height ∧ rowDiff img c y = true) →
        b.content_bottom - 1 < img.height ∧ rowDiff img c (b.content_bottom - 1) = true ∧
          ∀ j, b.content_bottom - 1 < j → j < img.height → rowDiff img c j = false) ∧
      ((∀ y, y < img.height → rowDiff img c y = false) →
        b.content_bottom - 1 = img.height - 1) ∧
      1 ≤ b.content_right ∧ 1 ≤ b.content_bottom ∧
      b.left_border = b.content_left ∧
      b.right_border = img.width - 1 - (b.content_right - 1) ∧
      b.top_border = b.content_top ∧
      b.bottom_border = img.height - 1 - (b.content_bottom - 1) ∧
      b.max_border =
        Nat.max (Nat.max (Nat.max b.left_border b.right_border) b.top_border)
          b.bottom_border :=
  scan_description img c p hw hh hload habs

theorem C1_witness :
    1 ≤ demoMixed.width ∧ 1 ≤ demoMixed.height ∧
    (∃ b : Bounds, find_uniform_content_bounds demoMixed [0] 0 = some b ∧
      ((∃ x, x < demoMixed.width ∧ colDiff demoMixed [0] x = true) →
        b.content_left < demoMixed.width ∧ colDiff demoMixed [0] b.content_left = true ∧
          ∀ j, j < b.content_left → colDiff demoMixed [0] j = false) ∧
      ((∀ x, x < demoMixed.width → colDiff demoMixed [0] x = false) →
        b.content_left = 0) ∧
      ((∃ x, x < demoMixed.width ∧ colDiff demoMixed [0] x = true) →
        b.content_right - 1 < demoMixed.width ∧
          colDiff demoMixed [0] (b.content_right - 1) = true ∧
          ∀ j, b.content_right - 1 < j → j < demoMixed.width →
            colDiff demoMixed [0] j = false) ∧
      ((∀ x, x < demoMixed.width → colDiff demoMixed [0] x = false) →
        b.content_right - 1 = demoMixed.width - 1) ∧
      ((∃ y, y < demoMixed.height ∧ rowDiff demoMixed [0] y = true) →
        b.content_top < demoMixed.height ∧ rowDiff demoMixed [0] b.content_top = true ∧
          ∀ j, j < b.content_top → rowDiff demoMixed [0] j = false) ∧
      ((∀ y, y < demoMixed.height → rowDiff demoMixed [0] y = false) →
        b.content_top = 0) ∧
      ((∃ y, y < demoMixed.height ∧ rowDiff demoMixed [0] y = true) →
        b.content_bottom - 1 < demoMixed.height ∧
          rowDiff demoMixed [0] (b.content_bottom - 1) = true ∧
          ∀ j, b.content_bottom - 1 < j → j < demoMixed.height →
            rowDiff demoMixed [0] j = false) ∧
      ((∀ y, y < demoMixed.height → rowDiff demoMixed [0] y = false) →
        b.content_bottom - 1 = demoMixed.height - 1) ∧
      1 ≤ b.content_right ∧ 1 ≤ b.content_bottom ∧
      b.left_border = b.content_left ∧
      b.right_border = demoMixed.width - 1 - (b.content_right - 1) ∧
      b.top_border = b.content_top ∧
      b.bottom_border = demoMixed.height - 1 - (b.content_bottom - 1) ∧
      b.max_border =
        Nat.max (Nat.max (Nat.max b.left_border b.right_border) b.top_border)
          b.bottom_border) :=
  ⟨by decide, by decide,
    C1_content_bounds_scanner demoMixed [0] 0 (by decide) (by decide) rfl (by decide)⟩

/-- C7: for every image with positive dimensions and every border color,
whenever the scanner returns bounds they satisfy
`0 ≤ content_left ≤ content_right ≤ width` and
`0 ≤ content_top ≤ content_bottom ≤ height` (right/bottom exclusive) —
including the degenerate all-uniform image (where the bounds cover the
full image) and the fallback case in which the pixel buffer is
unavailable. -/
theorem C7_bounds_invariant (img : Img) (c : PixelColor) (p : Nat) (b : Bounds)
    (hw : 1 ≤ img.width) (hh : 1 ≤ img.height)
    (habs : ∀ x, x < img.width → ∀ y, y < img.height → img.pix x y ≠ Pixel.absent)
    (hb : find_uniform_content_bounds img c p = some b) :
    b.content_left ≤ b.content_right ∧ b.content_right ≤ img.width ∧
    b.content_top ≤ b.content_bottom ∧ b.content_bottom ≤ img.height := by
  cases hload : img.loaded with
  | false =>
    unfold find_uniform_content_bounds at hb
    rw [hload] at hb
    simp only [Bool.false_eq_true, if_false] at hb
    have hbv := Option.some.inj hb
    rw [← hbv]
    dsimp only
    omega
  | true =>
    obtain ⟨b', hb', hlp, hln, hrp, hrn, htp, htn, hbp, hbn, hr1, hb1, _, _, _, _, _⟩ :=
      scan_description img c p hw hh hload habs
    have hbb : b = b' := Option.some.inj (hb.symm.trans hb')
    subst hbb
    constructor
    · by_cases hex : ∃ x, x < img.width ∧ colDiff img c x = true
      · obtain ⟨h1, h2, h3⟩ := hlp hex
        obtain ⟨h4, h5, h6⟩ := hrp hex
        by_contra hcon
        exact absurd h5 (by simp [h3 (b.content_right - 1) (by omega)])
      · have hall : ∀ x, x < img.width → colDiff img c x = false := by
          intro x hx
          cases hgx : colDiff img c x with
          | false => rfl
          | true => exact absurd ⟨x, hx, hgx⟩ hex
        have := hln hall
        omega
    constructor
    · by_cases hex : ∃ x, x < img.width ∧ colDiff img c x = true
      · obtain ⟨h4, h5, h6⟩ := hrp hex
        omega
      · have hall : ∀ x, x < img.width → colDiff img c x = false := by
          intro x hx
          cases hgx : colDiff img c x with
          | false => rfl
          | true => exact absurd ⟨x, hx, hgx⟩ hex
        have := hrn hall
        omega
    constructor
    · by_cases hex : ∃ y, y < img.height ∧ rowDiff img c y = true
      · obtain ⟨h1, h2, h3⟩ := htp hex
        obtain ⟨h4, h5, h6⟩ := hbp hex
        by_contra hcon
        exact absurd h5 (by simp [h3 (b.content_bottom - 1) (by omega)])
      · have hall : ∀ y, y < img.height → rowDiff img c y = false := by
          intro y hy
          cases hgy : rowDiff img c y with
          | false => rfl
          | true => exact absurd ⟨y, hy, hgy⟩ hex
        have := htn hall
        omega
    · by_cases hex : ∃ y, y < img.height ∧ rowDiff img c y = true
      · obtain ⟨h4, h5, h6⟩ := hbp hex
        omega
      · have hall : ∀ y, y < img.height → rowDiff img c y = false := by
          intro y hy
          cases hgy : rowDiff img c y with
          | false => rfl
          | true => exact absurd ⟨y, hy, hgy⟩ hex
        have := hbn hall
        omega

theorem C7_witness :
    ((⟨2, 1, 1, 1, 2, 1, 3, 2, 2⟩ : Bounds).content_left ≤
        (⟨2, 1, 1, 1, 2, 1, 3, 2, 2⟩ : Bounds).content_right ∧
      (⟨2, 1, 1, 1, 2, 1, 3, 2, 2⟩ : Bounds).content_right ≤ demoMixed.width ∧
      (⟨2, 1, 1, 1, 2, 1, 3, 2, 2⟩ : Bounds).content_top ≤
        (⟨2, 1, 1, 1, 2, 1, 3, 2, 2⟩ : Bounds).content_bottom ∧
      (⟨2, 1, 1, 1, 2, 1, 3, 2, 2⟩ : Bounds).content_bottom ≤ demoMixed.height) ∧
    ((⟨0, 0, 0, 0, 0, 0, 5, 4, 0⟩ : Bounds).content_left ≤
        (⟨0, 0, 0, 0, 0, 0, 5, 4, 0⟩ : Bounds).content_right ∧
      (⟨0, 0, 0, 0, 0, 0, 5, 4, 0⟩ : Bounds).content_right ≤ notLoaded.width ∧
      (⟨0, 0, 0, 0, 0, 0, 5, 4, 0⟩ : Bounds).content_top ≤
        (⟨0, 0, 0, 0, 0, 0, 5, 4, 0⟩ : Bounds).content_bottom ∧
      (⟨0, 0, 0, 0, 0, 0, 5, 4, 0⟩ : Bounds).content_bottom ≤ notLoaded.height) :=
  ⟨C7_bounds_invariant demoMixed [0] 0 ⟨2, 1, 1, 1, 2, 1, 3, 2, 2⟩ (by decide) (by decide)
      (by decide) rfl,
    C7_bounds_invariant notLoaded [0] 3 ⟨0, 0, 0, 0, 0, 0, 5, 4, 0⟩ (by decide) (by decide)
      (by decide) rfl⟩

theorem C10_witness :
    process_image norm8 2 true false =
      SaveEffect.writeToOutput true
        (apply_plan norm8 2 (NormalizationPlan.cropAndPad 2 2 6 6 [1])) ∧
    process_image nonUni 5 true false =
      SaveEffect.writeToOutput false (apply_plan nonUni 5 NormalizationPlan.addUniformBorder) :=
  ⟨(C10_mkdir_only_on_crop_path norm8 2).1 2 2 6 6 [1] rfl,
    (C10_mkdir_only_on_crop_path nonUni 5).2 rfl⟩
